import Mathlib

/-!
Shallow embedding of the resumable chunked-upload and storage engine of
`server/app.py` (Flask backup server), together with proofs of the
specification's testable properties.

Modelling conventions:
* Python `bytes` values are `List Nat` (entries are byte values).
* `hashlib.sha256(data).hexdigest()` is `sha256hex` below, a full
  implementation of FIPS 180-4 SHA-256 producing the lowercase hex string,
  exactly as `hexdigest()` does.
* The filesystem is explicit state (`ServerState`): the `.chunks` tree is an
  association list keyed by `(username, file_id)` holding each session
  directory (its `metadata.json` and its `chunk_<i>.part` files), and the
  upload tree is an association list keyed by `(username, category, filename)`
  holding finished artifacts.  `werkzeug.secure_filename` is treated as the
  identity on the model's key space (keys stand for already-sanitised names).
* The SQLAlchemy `User` rows (from `models.py`, which only declares the
  columns) are records with `used_bytes`/`quota_bytes` as integers, matching
  the spec's TenantUsage; all manipulation of those fields is in `app.py`
  and is embedded faithfully below.
* A Python exception escaping a handler (e.g. `user` being `None`, or an OS
  error during the merge write loop) is modelled explicitly: fallible
  operations return `Option`, and the merge write loop takes a fault oracle
  `failAt` injecting a `StorageIO` failure while writing a given chunk.
-/

namespace Bkup

/-! ## Bytes and SHA-256 (`hashlib.sha256(data).hexdigest()`) -/

abbrev ByteSeq := List Nat

def w32 : Nat := 2 ^ 32

def rotr (n x : Nat) : Nat := ((x >>> n) ||| (x <<< (32 - n))) % w32

def shr (n x : Nat) : Nat := x >>> n

def bSig0 (x : Nat) : Nat := (rotr 2 x) ^^^ (rotr 13 x) ^^^ (rotr 22 x)

def bSig1 (x : Nat) : Nat := (rotr 6 x) ^^^ (rotr 11 x) ^^^ (rotr 25 x)

def sSig0 (x : Nat) : Nat := (rotr 7 x) ^^^ (rotr 18 x) ^^^ (shr 3 x)

def sSig1 (x : Nat) : Nat := (rotr 17 x) ^^^ (rotr 19 x) ^^^ (shr 10 x)

def chF (x y z : Nat) : Nat := (x &&& y) ^^^ ((x ^^^ 0xffffffff) &&& z)

def majF (x y z : Nat) : Nat := (x &&& y) ^^^ (x &&& z) ^^^ (y &&& z)

def sha256K : List Nat :=
  [1116352408, 1899447441, 3049323471, 3921009573, 961987163,
   1508970993, 2453635748, 2870763221, 3624381080, 310598401,
   607225278, 1426881987, 1925078388, 2162078206, 2614888103,
   3248222580, 3835390401, 4022224774, 264347078, 604807628,
   770255983, 1249150122, 1555081692, 1996064986, 2554220882,
   2821834349, 2952996808, 3210313671, 3336571891, 3584528711,
   113926993, 338241895, 666307205, 773529912, 1294757372,
   1396182291, 1695183700, 1986661051, 2177026350, 2456956037,
   2730485921, 2820302411, 3259730800, 3345764771, 3516065817,
   3600352804, 4094571909, 275423344, 430227734, 506948616,
   659060556, 883997877, 958139571, 1322822218, 1537002063,
   1747873779, 1955562222, 2024104815, 2227730452, 2361852424,
   2428436474, 2756734187, 3204031479, 3329325298]

def sha256H0 : List Nat :=
  [1779033703, 3144134277, 1013904242, 2773480762,
   1359893119, 2600822924, 528734635, 1541459225]

/-- big-endian byte expansion of `v` into `n` bytes -/
def beBytes (n v : Nat) : List Nat :=
  (List.range n).map (fun i => (v >>> (8 * (n - 1 - i))) % 256)

/-- SHA-256 padding: append `0x80`, zero bytes up to 56 mod 64, then the
64-bit big-endian bit length. -/
def padMessage (m : ByteSeq) : ByteSeq :=
  m ++ [0x80] ++ List.replicate ((119 - m.length % 64) % 64) 0
    ++ beBytes 8 (8 * m.length)

/-- group bytes into big-endian 32-bit words -/
def bytesToWords : List Nat → List Nat
  | a :: b :: c :: d :: rest =>
      ((a <<< 24) ||| (b <<< 16) ||| (c <<< 8) ||| d) :: bytesToWords rest
  | _ => []

/-- extend a 16-word block by `n` further schedule words -/
def extendSchedule (ws : List Nat) : Nat → List Nat
  | 0 => ws
  | n + 1 =>
      let prev := extendSchedule ws n
      let t := prev.length
      prev ++ [(sSig1 (prev.getD (t - 2) 0) + prev.getD (t - 7) 0
                + sSig0 (prev.getD (t - 15) 0) + prev.getD (t - 16) 0) % w32]

/-- the 64 compression rounds over working variables `[a,b,c,d,e,f,g,h]` -/
def compressRounds : List Nat → List Nat → List Nat → List Nat
  | [a, b, c, d, e, f, g, h], kt :: ks, wt :: ws =>
      let t1 := (h + bSig1 e + chF e f g + kt + wt) % w32
      let t2 := (bSig0 a + majF a b c) % w32
      compressRounds [(t1 + t2) % w32, a, b, c, (d + t1) % w32, e, f, g] ks ws
  | st, _, _ => st

def compressBlock (hs : List Nat) (block : List Nat) : List Nat :=
  let ws := extendSchedule block 48
  let st := compressRounds hs sha256K ws
  List.zipWith (fun h s => (h + s) % w32) hs st

/-- fold the compression function over successive 16-word blocks -/
def processWords (hs : List Nat) : List Nat → List Nat
  | w0 :: w1 :: w2 :: w3 :: w4 :: w5 :: w6 :: w7 ::
    w8 :: w9 :: w10 :: w11 :: w12 :: w13 :: w14 :: w15 :: rest =>
      processWords
        (compressBlock hs
          [w0, w1, w2, w3, w4, w5, w6, w7, w8, w9, w10, w11, w12, w13, w14, w15])
        rest
  | _ => hs

def hexChar (n : Nat) : Char :=
  if n < 10 then Char.ofNat (48 + n) else Char.ofNat (87 + n)

def wordToHex (w : Nat) : String :=
  String.mk ((List.range 8).map (fun i => hexChar ((w >>> (4 * (7 - i))) % 16)))

/-- `hashlib.sha256(m).hexdigest()`: lowercase hex digest of the byte string -/
def sha256hex (m : ByteSeq) : String :=
  String.join ((processWords sha256H0 (bytesToWords (padMessage m))).map wordToHex)

example : sha256hex [] =
    "e3b0c44298fc1c149afbf4c8996fb92427ae41e4649b934ca495991b7852b855" := by
  decide

example : sha256hex [97, 98, 99] =
    "ba7816bf8f01cfea414140de5dae2223b00361a396177a9cb410ff61f20015ad" := by
  decide

/-! ## Association lists (directory trees and database tables) -/

/-- lookup by key in an association list (first match) -/
def lookupKey {α β : Type} [DecidableEq α] (k : α) : List (α × β) → Option β
  | [] => none
  | (k', v) :: rest => if k' = k then some v else lookupKey k rest

/-- write (create or replace) the entry with key `k` -/
def setKey {α β : Type} [DecidableEq α] (k : α) (v : β) :
    List (α × β) → List (α × β)
  | [] => [(k, v)]
  | (k', v') :: rest =>
      if k' = k then (k', v) :: rest else (k', v') :: setKey k v rest

/-- delete every entry with key `k` -/
def eraseKey {α β : Type} [DecidableEq α] (k : α) :
    List (α × β) → List (α × β)
  | [] => []
  | (k', v') :: rest =>
      if k' = k then eraseKey k rest else (k', v') :: eraseKey k rest

/-! ## Data model -/

/-- row of the `users` table (`models.py` declares the columns; all use is in
`app.py`): the per-tenant quota ledger. -/
structure UserRec where
  used_bytes : Int
  quota_bytes : Int
deriving Repr, DecidableEq

/-- content of a session's `metadata.json` as written by
`save_chunk_metadata` -/
structure ChunkMeta where
  filename : String
  category : String
  total_chunks : Nat
  upload_start_time : Nat
  username : String
deriving Repr, DecidableEq

/-- a session directory `.chunks/<username>/<file_id>/`: an optional
`metadata.json` plus the `chunk_<i>.part` files keyed by index -/
structure ChunkDir where
  metadata : Option ChunkMeta
  chunks : List (Nat × ByteSeq)
deriving Repr, DecidableEq

/-- whole persistent state: the `users` table, the `.chunks` tree keyed by
`(username, file_id)`, and the finished artifacts keyed by
`(username, category, filename)` -/
structure ServerState where
  users : List (String × UserRec)
  chunkDirs : List ((String × String) × ChunkDir)
  artifacts : List ((String × String × String) × ByteSeq)
deriving Repr, DecidableEq

/-- the directory for `(username, file_id)`, an empty one if absent
(`os.makedirs(..., exist_ok=True)` semantics) -/
def getDir (st : ServerState) (username file_id : String) : ChunkDir :=
  (lookupKey (username, file_id) st.chunkDirs).getD ⟨none, []⟩

/-- `get_chunk_directory`: materialise the directory (creation side effect) -/
def ensureDir (username file_id : String) (st : ServerState) : ServerState :=
  let dirs := setKey (username, file_id) (getDir st username file_id) st.chunkDirs
  { st with chunkDirs := dirs }

/-- `load_chunk_metadata`: creates the directory (via `get_metadata_path` →
`get_chunk_directory`), then reads `metadata.json` if present -/
def load_chunk_metadata (file_id username : String) (st : ServerState) :
    ServerState × Option ChunkMeta :=
  (ensureDir username file_id st, (getDir st username file_id).metadata)

/-- `save_chunk_metadata`: writes `metadata.json` (the record fixed at session
creation); `now` is `time.time()` -/
def save_chunk_metadata (file_id filename category : String)
    (total_chunks : Nat) (username : String) (now : Nat)
    (st : ServerState) : ServerState :=
  let d := getDir st username file_id
  let d' := { d with metadata := some ⟨filename, category, total_chunks, now, username⟩ }
  { st with chunkDirs := setKey (username, file_id) d' st.chunkDirs }

/-- indices of the `chunk_<i>.part` files in a directory, sorted ascending
(the filename scan in `get_received_chunks`) -/
def listReceived (d : ChunkDir) : List Nat :=
  List.insertionSort (· ≤ ·) (d.chunks.map Prod.fst)

/-- `get_received_chunks`: the indices of the `chunk_<i>.part` files present,
sorted ascending -/
def get_received_chunks (file_id username : String) (st : ServerState) :
    ServerState × List Nat :=
  (ensureDir username file_id st, listReceived (getDir st username file_id))

/-- the checksum-mismatch message of `save_chunk` (Python f-string) -/
def checksumErr (expected actual : String) : String :=
  "Checksum mismatch: expected " ++ expected ++ ", got " ++ actual

/-- `save_chunk`: checksum gate, quota check against
`used_bytes + len(chunk_data)`, prior-size credit on overwrite, write, and
quota commit.  Returns `none` when `User.query...first()` yields no row (the
Python code would raise `AttributeError`); otherwise the new state and the
`(success, message)` pair returned to the route. -/
def save_chunk (st : ServerState) (file_id : String) (chunk_index : Nat)
    (chunk_data : ByteSeq) (expected_checksum username : String) :
    Option (ServerState × Bool × String) :=
  let actual := sha256hex chunk_data
  if actual ≠ expected_checksum then
    some (st, false, checksumErr expected_checksum actual)
  else
    match lookupKey username st.users with
    | none => none
    | some user =>
      if user.used_bytes + chunk_data.length > user.quota_bytes then
        some (st, false, "Quota exceeded")
      else
        let d := getDir st username file_id
        -- credit back the prior payload's size before charging the new bytes
        let user1 : UserRec :=
          match lookupKey chunk_index d.chunks with
          | some old => { user with used_bytes := user.used_bytes - old.length }
          | none => user
        let user2 : UserRec :=
          { user1 with used_bytes := user1.used_bytes + chunk_data.length }
        let d' := { d with chunks := setKey chunk_index chunk_data d.chunks }
        let st' :=
          { st with
              users := setKey username user2 st.users,
              chunkDirs := setKey (username, file_id) d' st.chunkDirs }
        some (st', true, actual)

/-- content of the first `n` chunk files of a directory, concatenated in
ascending index order (the merge loop body, `shutil.copyfileobj` per chunk) -/
def concatUpTo (d : ChunkDir) (n : Nat) : ByteSeq :=
  ((List.range n).map (fun i => (lookupKey i d.chunks).getD [])).flatten

/-- concatenation of a session's chunk payloads in ascending index order -/
def sessionConcat (st : ServerState) (username file_id : String) (n : Nat) :
    ByteSeq :=
  concatUpTo (getDir st username file_id) n

/-- outcome of `merge_chunks` -/
inductive MergeResult where
  | missing (idxs : List Nat)
  | ioError
  | merged (key : String × String × String)
deriving Repr, DecidableEq

/-- `merge_chunks`: completeness check against `list(range(total_chunks))`,
then the write loop into the final artifact, then `shutil.rmtree(chunk_dir)`.
The failure message `"Missing chunks: " ++ repr (sorted missing)` carries
`sorted(set(expected) - set(received))`, which (since `expected` is ascending
and filtering preserves order) is `expected.filter (· ∉ received)`; the model
returns that list itself.  `failAt = some k` (with `k` below `total_chunks`)
injects a `StorageIO` fault while writing chunk `k`: the artifact file holds
the chunks before `k`, the exception escapes (there is no handler in lines
149–157 of `app.py`), and the chunk directory is not removed. -/
def merge_chunks (failAt : Option Nat) (file_id : String) (total_chunks : Nat)
    (final_filename category username : String) (st : ServerState) :
    ServerState × MergeResult :=
  let st1 := ensureDir username file_id st
  let d := getDir st username file_id
  let received := listReceived d
  let expected := List.range total_chunks
  if received ≠ expected then
    (st1, .missing (expected.filter (fun i => i ∉ received)))
  else
    let key := (username, category, final_filename)
    match failAt with
    | some k =>
      if k < total_chunks then
        let st2 := { st1 with artifacts := setKey key (concatUpTo d k) st1.artifacts }
        (st2, .ioError)
      else
        let st2 :=
          { st1 with
              artifacts := setKey key (concatUpTo d total_chunks) st1.artifacts,
              chunkDirs := eraseKey (username, file_id) st1.chunkDirs }
        (st2, .merged key)
    | none =>
      let st2 :=
        { st1 with
            artifacts := setKey key (concatUpTo d total_chunks) st1.artifacts,
            chunkDirs := eraseKey (username, file_id) st1.chunkDirs }
      (st2, .merged key)

/-- `cleanup_old_chunks`: remove (and count) every session directory whose
`metadata.json` exists and whose age `now - upload_start_time` strictly
exceeds `retention_seconds`; directories without metadata are skipped, and no
quota adjustment is performed anywhere in the function. -/
def isStale (now retention_seconds : Nat) (d : ChunkDir) : Bool :=
  match d.metadata with
  | some m => now - m.upload_start_time > retention_seconds
  | none => false

def cleanup_old_chunks (now retention_seconds : Nat) (st : ServerState) :
    ServerState × Nat :=
  let keep := st.chunkDirs.filter (fun p => ¬ isStale now retention_seconds p.2)
  let removed := st.chunkDirs.filter (fun p => isStale now retention_seconds p.2)
  ({ st with chunkDirs := keep }, removed.length)

/-- `delete_file` route body after auth: 404 when absent, otherwise remove the
artifact and set `used_bytes := max 0 (used_bytes - file_size)`.  Returns
`none` when the user row is missing (Python raises after the file removal). -/
def delete_file (category filename username : String) (st : ServerState) :
    Option (ServerState × Bool) :=
  match lookupKey (username, category, filename) st.artifacts with
  | none => some (st, false)
  | some content =>
    match lookupKey username st.users with
    | none => none
    | some user =>
      let user' := { user with used_bytes := max 0 (user.used_bytes - content.length) }
      let st' :=
        { st with
            artifacts := eraseKey (username, category, filename) st.artifacts,
            users := setKey username user' st.users }
      some (st', true)

/-! ## Route-level operations -/

/-- response of the `/upload/chunked` route -/
inductive UploadResult where
  | badIndex
  | saveFailed (msg : String)
  | ok (chunk_index : Nat) (received : List Nat) (total : Int) (complete : Bool)
deriving Repr, DecidableEq

/-- `upload_chunk` (`POST /upload/chunked`): index validation against the
request's own `total_chunks`, implicit session creation when no metadata
exists yet, then `save_chunk`; `none` models the crash when the user row is
missing. -/
def upload_chunk (now : Nat) (file_id filename category : String)
    (chunk_index total_chunks : Int) (chunk_data : ByteSeq)
    (checksum username : String) (st : ServerState) :
    Option (ServerState × UploadResult) :=
  if chunk_index < 0 ∨ chunk_index ≥ total_chunks then
    some (st, .badIndex)
  else
    let p1 := load_chunk_metadata file_id username st
    let st2 :=
      match p1.2 with
      | none =>
          save_chunk_metadata file_id filename category total_chunks.toNat
            username now p1.1
      | some _ => p1.1
    match save_chunk st2 file_id chunk_index.toNat chunk_data checksum username with
    | none => none
    | some (st3, false, msg) => some (st3, .saveFailed msg)
    | some (st3, true, _) =>
        let p2 := get_received_chunks file_id username st3
        some (p2.1,
          .ok chunk_index.toNat p2.2 total_chunks
            (decide ((p2.2.length : Int) = total_chunks)))

/-- response of the `/upload/status/<file_id>` route -/
inductive StatusResult where
  | absent
  | present (filename category : String) (total : Nat) (received : List Nat)
      (complete : Bool)
deriving Repr, DecidableEq

/-- `upload_status` (`GET /upload/status/<file_id>`): `absent` is the
`exists=false` response (with empty `received_chunks`). -/
def upload_status (file_id username : String) (st : ServerState) :
    ServerState × StatusResult :=
  let p1 := load_chunk_metadata file_id username st
  match p1.2 with
  | none => (p1.1, .absent)
  | some m =>
      let p2 := get_received_chunks file_id username p1.1
      (p2.1,
       .present m.filename m.category m.total_chunks p2.2
         (decide (p2.2.length = m.total_chunks)))

/-- response of the `/upload/merge/<file_id>` route -/
inductive MergeUploadResult where
  | notFound
  | failed (idxs : List Nat)
  | ioError
  | merged (key : String × String × String)
deriving Repr, DecidableEq

/-- `merge_upload` (`POST /upload/merge/<file_id>`): 404 when the session
metadata is absent, otherwise `merge_chunks` on the declaration stored in
`metadata.json` (the same fault oracle `failAt` is passed through). -/
def merge_upload (failAt : Option Nat) (file_id username : String)
    (st : ServerState) : ServerState × MergeUploadResult :=
  let p1 := load_chunk_metadata file_id username st
  match p1.2 with
  | none => (p1.1, .notFound)
  | some m =>
      let p2 := merge_chunks failAt file_id m.total_chunks m.filename
        m.category username p1.1
      match p2.2 with
      | .missing idxs => (p2.1, .failed idxs)
      | .ioError => (p2.1, .ioError)
      | .merged key => (p2.1, .merged key)

/-! ## Operation sequences (for the quota invariant) -/

/-- one mutating request against the engine -/
inductive Op where
  | upload (now : Nat) (file_id filename category : String)
      (chunk_index total_chunks : Int) (chunk_data : ByteSeq)
      (checksum username : String)
  | mergeOp (failAt : Option Nat) (file_id username : String)
  | sweep (now retention_seconds : Nat)
  | deleteOp (category filename username : String)

/-- state reached by one request (for the crash cases, the state at the point
the exception is raised never includes a `users`-table write) -/
def step (st : ServerState) : Op → ServerState
  | .upload now fid fn cat ci tot data chk u =>
      match upload_chunk now fid fn cat ci tot data chk u st with
      | some p => p.1
      | none => st
  | .mergeOp failAt fid u => (merge_upload failAt fid u st).1
  | .sweep now ret => (cleanup_old_chunks now ret st).1
  | .deleteOp cat fn u =>
      match delete_file cat fn u st with
      | some p => p.1
      | none => st

def run (st : ServerState) : List Op → ServerState
  | [] => st
  | op :: ops => run (step st op) ops

/-- per-tenant ledger invariant: quotas are non-negative and usage never
exceeds the quota -/
def QuotaInv (st : ServerState) : Prop :=
  ∀ p ∈ st.users, 0 ≤ p.2.quota_bytes ∧ p.2.used_bytes ≤ p.2.quota_bytes

instance (st : ServerState) : Decidable (QuotaInv st) := by
  unfold QuotaInv; infer_instance

/-! ## Association-list lemmas -/

theorem lookupKey_setKey_self {α β : Type} [DecidableEq α] (k : α) (v : β)
    (l : List (α × β)) : lookupKey k (setKey k v l) = some v := by
  induction l with
  | nil => simp [setKey, lookupKey]
  | cons p rest ih =>
      by_cases h : p.1 = k <;> simp [setKey, lookupKey, h, ih]

theorem lookupKey_setKey_ne {α β : Type} [DecidableEq α] {k k' : α} (v : β)
    (l : List (α × β)) (h : k' ≠ k) :
    lookupKey k' (setKey k v l) = lookupKey k' l := by
  have hk : ¬(k = k') := fun e => h e.symm
  induction l with
  | nil => simp [setKey, lookupKey, hk]
  | cons p rest ih =>
      by_cases hp : p.1 = k
      · have hp' : ¬(p.1 = k') := by rw [hp]; exact hk
        simp [setKey, lookupKey, hp, hp', hk]
      · simp only [setKey, if_neg hp]
        by_cases hp' : p.1 = k'
        · simp [lookupKey, hp']
        · simp [lookupKey, hp', ih]

theorem lookupKey_eraseKey_self {α β : Type} [DecidableEq α] (k : α)
    (l : List (α × β)) : lookupKey k (eraseKey k l) = none := by
  induction l with
  | nil => simp [eraseKey, lookupKey]
  | cons p rest ih =>
      by_cases h : p.1 = k <;> simp [eraseKey, lookupKey, h, ih]

theorem mem_setKey {α β : Type} [DecidableEq α] {k : α} {v : β}
    {l : List (α × β)} {p : α × β} (h : p ∈ setKey k v l) :
    p = (k, v) ∨ p ∈ l := by
  induction l with
  | nil =>
      simp only [setKey] at h
      exact Or.inl (List.mem_singleton.1 h)
  | cons q rest ih =>
      obtain ⟨qk, qv⟩ := q
      by_cases hq : qk = k
      · subst hq
        simp only [setKey, if_pos rfl] at h
        rcases List.mem_cons.1 h with h | h
        · exact Or.inl h
        · exact Or.inr (List.mem_cons_of_mem _ h)
      · simp only [setKey, if_neg hq] at h
        rcases List.mem_cons.1 h with h | h
        · exact Or.inr (h ▸ List.mem_cons_self _ _)
        · rcases ih h with h | h
          · exact Or.inl h
          · exact Or.inr (List.mem_cons_of_mem _ h)

theorem lookupKey_mem {α β : Type} [DecidableEq α] {k : α} {v : β}
    {l : List (α × β)} (h : lookupKey k l = some v) : (k, v) ∈ l := by
  induction l with
  | nil => simp [lookupKey] at h
  | cons q rest ih =>
      obtain ⟨qk, qv⟩ := q
      by_cases hp : qk = k
      · subst hp
        simp only [lookupKey, if_pos rfl] at h
        cases h
        exact List.mem_cons_self _ _
      · simp only [lookupKey, if_neg hp] at h
        exact List.mem_cons_of_mem _ (ih h)

/-! ## Basic state-effect lemmas -/

theorem users_ensureDir (u f : String) (st : ServerState) :
    (ensureDir u f st).users = st.users := rfl

theorem artifacts_ensureDir (u f : String) (st : ServerState) :
    (ensureDir u f st).artifacts = st.artifacts := rfl

theorem getDir_ensureDir (u f u' f' : String) (st : ServerState) :
    getDir (ensureDir u' f' st) u f = getDir st u f := by
  by_cases h : (u', f') = (u, f)
  · cases h
    simp [getDir, ensureDir, lookupKey_setKey_self]
  · have h' : ((u : String), (f : String)) ≠ (u', f') := fun e => h e.symm
    simp [getDir, ensureDir, lookupKey_setKey_ne _ _ h']

theorem users_save_chunk_metadata (fid fn cat : String) (tot : Nat)
    (u : String) (now : Nat) (st : ServerState) :
    (save_chunk_metadata fid fn cat tot u now st).users = st.users := rfl

theorem users_merge_chunks (failAt : Option Nat) (fid : String) (tot : Nat)
    (fn cat u : String) (st : ServerState) :
    (merge_chunks failAt fid tot fn cat u st).1.users = st.users := by
  unfold merge_chunks
  dsimp only
  repeat' split
  all_goals rfl

theorem users_merge_upload (failAt : Option Nat) (fid u : String)
    (st : ServerState) : (merge_upload failAt fid u st).1.users = st.users := by
  unfold merge_upload
  dsimp only
  split
  · rfl
  · split <;> simp [users_merge_chunks, load_chunk_metadata, ensureDir]

theorem users_cleanup (now ret : Nat) (st : ServerState) :
    (cleanup_old_chunks now ret st).1.users = st.users := rfl

/-! ## Effect of `save_chunk` on the ledger -/

theorem save_chunk_state_spec (st : ServerState) (fid : String) (idx : Nat)
    (data : ByteSeq) (chk u : String) {st' : ServerState} {b : Bool}
    {m : String} (h : save_chunk st fid idx data chk u = some (st', b, m)) :
    (b = false ∧ st' = st) ∨
    (b = true ∧ ∃ user, lookupKey u st.users = some user ∧
      ∃ nu : Int, nu ≤ user.quota_bytes ∧
        st'.users = setKey u ⟨nu, user.quota_bytes⟩ st.users) := by
  unfold save_chunk at h
  dsimp only at h
  split at h
  · simp only [Option.some.injEq, Prod.mk.injEq] at h
    exact Or.inl ⟨h.2.1.symm, h.1.symm⟩
  · split at h
    · exact Option.noConfusion h
    · rename_i user huser
      split at h
      · simp only [Option.some.injEq, Prod.mk.injEq] at h
        exact Or.inl ⟨h.2.1.symm, h.1.symm⟩
      · rename_i hq
        rcases hprior : lookupKey idx (getDir st u fid).chunks with _ | old
        all_goals rw [hprior] at h
        all_goals simp only [Option.some.injEq, Prod.mk.injEq] at h
        · refine Or.inr ⟨h.2.1.symm, user, huser,
            user.used_bytes + data.length, by omega, ?_⟩
          rw [← h.1]
        · refine Or.inr ⟨h.2.1.symm, user, huser,
            user.used_bytes - old.length + data.length, ?_, ?_⟩
          · have hlen : (0 : Int) ≤ (old.length : Int) := Int.ofNat_nonneg _
            omega
          · rw [← h.1]

/-- a failed `save_chunk` performs no write at all: the returned state is the
input state -/
theorem save_chunk_fail_eq {st st' : ServerState} {fid : String} {idx : Nat}
    {data : ByteSeq} {chk u m : String}
    (h : save_chunk st fid idx data chk u = some (st', false, m)) :
    st' = st := by
  rcases save_chunk_state_spec st fid idx data chk u h with ⟨_, e⟩ | ⟨hb, _⟩
  · exact e
  · exact Bool.noConfusion hb

/-! ## Quota invariant preservation -/

theorem upload_chunk_users_spec (now : Nat) (fid fn cat : String)
    (ci tot : Int) (data : ByteSeq) (chk u : String) (st : ServerState)
    {st' : ServerState} {r : UploadResult}
    (h : upload_chunk now fid fn cat ci tot data chk u st = some (st', r)) :
    st'.users = st.users ∨
    (∃ user, lookupKey u st.users = some user ∧
      ∃ nu : Int, nu ≤ user.quota_bytes ∧
        st'.users = setKey u ⟨nu, user.quota_bytes⟩ st.users) := by
  unfold upload_chunk at h
  dsimp only at h
  split at h
  · simp only [Option.some.injEq, Prod.mk.injEq] at h
    exact Or.inl (by rw [← h.1])
  · -- the intermediate state after the implicit-session-creation step has
    -- the same users table as the input state
    set st2 := (match (load_chunk_metadata fid u st).2 with
      | none => save_chunk_metadata fid fn cat tot.toNat u now
          (load_chunk_metadata fid u st).1
      | some _ => (load_chunk_metadata fid u st).1) with hst2
    have husers2 : st2.users = st.users := by
      rw [hst2]
      rcases (load_chunk_metadata fid u st).2 with _ | m <;> rfl
    split at h
    · exact Option.noConfusion h
    · rename_i st3 msg hsave
      simp only [Option.some.injEq, Prod.mk.injEq] at h
      have h3 : st3 = st2 := save_chunk_fail_eq hsave
      exact Or.inl (by rw [← h.1, h3, husers2])
    · rename_i st3 actual hsave
      simp only [Option.some.injEq, Prod.mk.injEq] at h
      rcases save_chunk_state_spec st2 fid ci.toNat data chk u hsave with
        ⟨hb, _⟩ | ⟨_, user, huser, nu, hnu, husers⟩
      · exact Bool.noConfusion hb
      · refine Or.inr ⟨user, by rw [← husers2]; exact huser, nu, hnu, ?_⟩
        rw [← h.1]
        show st3.users = _
        rw [husers, husers2]

theorem delete_file_users_spec (cat fn u : String) (st : ServerState)
    {st' : ServerState} {b : Bool}
    (h : delete_file cat fn u st = some (st', b)) :
    st'.users = st.users ∨
    (∃ user, ∃ n : Int, 0 ≤ n ∧ lookupKey u st.users = some user ∧
      st'.users = setKey u ⟨max 0 (user.used_bytes - n), user.quota_bytes⟩ st.users) := by
  unfold delete_file at h
  dsimp only at h
  split at h
  · simp only [Option.some.injEq, Prod.mk.injEq] at h
    exact Or.inl (by rw [← h.1])
  · rename_i content hart
    split at h
    · exact Option.noConfusion h
    · rename_i user huser
      simp only [Option.some.injEq, Prod.mk.injEq] at h
      refine Or.inr ⟨user, content.length, Int.ofNat_nonneg _, huser, ?_⟩
      rw [← h.1]

theorem usersOk_setKey {l : List (String × UserRec)}
    (h : ∀ p ∈ l, 0 ≤ p.2.quota_bytes ∧ p.2.used_bytes ≤ p.2.quota_bytes)
    {k : String} {v : UserRec}
    (hv : 0 ≤ v.quota_bytes ∧ v.used_bytes ≤ v.quota_bytes) :
    ∀ p ∈ setKey k v l, 0 ≤ p.2.quota_bytes ∧ p.2.used_bytes ≤ p.2.quota_bytes := by
  intro p hp
  rcases mem_setKey hp with e | hm
  · rw [e]; exact hv
  · exact h p hm

theorem quotaInv_step (st : ServerState) (op : Op) (h : QuotaInv st) :
    QuotaInv (step st op) := by
  cases op with
  | upload now fid fn cat ci tot data chk u =>
      cases hrun : upload_chunk now fid fn cat ci tot data chk u st with
      | none => intro q hq; simp only [step, hrun] at hq; exact h q hq
      | some p =>
          rcases upload_chunk_users_spec now fid fn cat ci tot data chk u st hrun
            with he | ⟨user, huser, nu, hnu, he⟩
          · intro q hq
            simp only [step, hrun] at hq
            rw [he] at hq; exact h q hq
          · intro q hq
            simp only [step, hrun] at hq
            rw [he] at hq
            refine usersOk_setKey h ?_ q hq
            exact ⟨(h _ (lookupKey_mem huser)).1, hnu⟩
  | mergeOp failAt fid u =>
      intro q hq
      simp only [step] at hq
      rw [users_merge_upload] at hq
      exact h q hq
  | sweep now ret =>
      intro q hq
      simp only [step] at hq
      rw [users_cleanup] at hq
      exact h q hq
  | deleteOp cat fn u =>
      cases hrun : delete_file cat fn u st with
      | none => intro q hq; simp only [step, hrun] at hq; exact h q hq
      | some p =>
          rcases delete_file_users_spec cat fn u st hrun
            with he | ⟨user, n, hn, huser, he⟩
          · intro q hq
            simp only [step, hrun] at hq
            rw [he] at hq; exact h q hq
          · intro q hq
            simp only [step, hrun] at hq
            rw [he] at hq
            have hmem := h _ (lookupKey_mem huser)
            have hquota : (0 : Int) ≤ user.quota_bytes := hmem.1
            have hused : user.used_bytes ≤ user.quota_bytes := hmem.2
            have h2 : user.used_bytes - n ≤ user.quota_bytes := by omega
            refine usersOk_setKey h ?_ q hq
            exact ⟨hquota, max_le hquota h2⟩

theorem quotaInv_run (st : ServerState) (ops : List Op) (h : QuotaInv st) :
    QuotaInv (run st ops) := by
  induction ops generalizing st with
  | nil => exact h
  | cons op ops ih => exact ih _ (quotaInv_step st op h)

/-! ## Characterisation of `merge_chunks` outcomes -/

theorem merge_chunks_missing_spec {failAt : Option Nat} {fid : String}
    {tot : Nat} {fn cat u : String} {st st' : ServerState} {l : List Nat}
    (h : merge_chunks failAt fid tot fn cat u st = (st', .missing l)) :
    st' = ensureDir u fid st
    ∧ l = (List.range tot).filter (fun i => i ∉ listReceived (getDir st u fid))
    ∧ listReceived (getDir st u fid) ≠ List.range tot := by
  unfold merge_chunks at h
  dsimp only at h
  split at h
  · rename_i hne
    simp only [Prod.mk.injEq, MergeResult.missing.injEq] at h
    exact ⟨h.1.symm, h.2.symm, by simpa using hne⟩
  · split at h
    · split at h <;> simp [Prod.ext_iff] at h
    · simp [Prod.ext_iff] at h

theorem merge_chunks_merged_spec {failAt : Option Nat} {fid : String}
    {tot : Nat} {fn cat u : String} {st st' : ServerState}
    {key : String × String × String}
    (h : merge_chunks failAt fid tot fn cat u st = (st', .merged key)) :
    key = (u, cat, fn)
    ∧ st'.users = st.users
    ∧ st'.artifacts =
        setKey (u, cat, fn) (concatUpTo (getDir st u fid) tot) st.artifacts
    ∧ lookupKey (u, fid) st'.chunkDirs = none
    ∧ listReceived (getDir st u fid) = List.range tot := by
  unfold merge_chunks at h
  dsimp only at h
  split at h
  · simp [Prod.ext_iff] at h
  · rename_i hre
    have hrange : listReceived (getDir st u fid) = List.range tot := by
      simpa using hre
    split at h
    · split at h
      · simp [Prod.ext_iff] at h
      · simp only [Prod.mk.injEq, MergeResult.merged.injEq] at h
        obtain ⟨h1, h2⟩ := h
        refine ⟨h2.symm, by rw [← h1]; rfl, by rw [← h1]; rfl, ?_, hrange⟩
        rw [← h1]
        exact lookupKey_eraseKey_self _ _
    · simp only [Prod.mk.injEq, MergeResult.merged.injEq] at h
      obtain ⟨h1, h2⟩ := h
      refine ⟨h2.symm, by rw [← h1]; rfl, by rw [← h1]; rfl, ?_, hrange⟩
      rw [← h1]
      exact lookupKey_eraseKey_self _ _

theorem merge_chunks_ioError_spec {k : Nat} {fid : String}
    {tot : Nat} {fn cat u : String} {st st' : ServerState}
    (h : merge_chunks (some k) fid tot fn cat u st = (st', .ioError)) :
    k < tot
    ∧ st'.users = st.users
    ∧ st'.artifacts =
        setKey (u, cat, fn) (concatUpTo (getDir st u fid) k) st.artifacts
    ∧ st'.chunkDirs = (ensureDir u fid st).chunkDirs
    ∧ listReceived (getDir st u fid) = List.range tot := by
  unfold merge_chunks at h
  dsimp only at h
  split at h
  · simp [Prod.ext_iff] at h
  · rename_i hre
    split at h
    · rename_i hk
      simp only [Prod.mk.injEq] at h
      refine ⟨hk, by rw [← h.1]; try rfl, by rw [← h.1]; try rfl,
        by rw [← h.1]; try rfl, by simpa using hre⟩
    · simp [Prod.ext_iff] at h

theorem merge_chunks_none_not_ioError {fid : String} {tot : Nat}
    {fn cat u : String} {st : ServerState} :
    (merge_chunks none fid tot fn cat u st).2 ≠ .ioError := by
  unfold merge_chunks
  dsimp only
  split <;> simp

theorem upload_status_absent_of_noDir {st : ServerState} {fid u : String}
    (h : lookupKey (u, fid) st.chunkDirs = none) :
    (upload_status fid u st).2 = .absent := by
  unfold upload_status load_chunk_metadata getDir
  rw [h]
  rfl

/-- the sorted index listing equals `[0, ..., tot)` exactly when the set of
stored indices is `{0, ..., tot-1}` -/
theorem listReceived_eq_range_iff (d : ChunkDir) (tot : Nat)
    (hnd : (d.chunks.map Prod.fst).Nodup) :
    listReceived d = List.range tot ↔
      (∀ i, i ∈ d.chunks.map Prod.fst ↔ i < tot) := by
  have hperm : List.Perm (listReceived d) (d.chunks.map Prod.fst) :=
    List.perm_insertionSort _ _
  constructor
  · intro he i
    rw [← hperm.mem_iff, he, List.mem_range]
  · intro hm
    refine List.eq_of_perm_of_sorted ?_ (List.sorted_insertionSort _ _)
      (List.sorted_le_range tot)
    refine (List.perm_ext_iff_of_nodup (hperm.nodup_iff.2 hnd)
      (List.nodup_range tot)).2 ?_
    intro i
    rw [hperm.mem_iff, List.mem_range]
    exact hm i

/-! ## Claim theorems -/

/-- C1: for every session whose merge succeeds, the artifact's byte content
equals the concatenation of the session's chunk payloads in ascending index
order, and afterwards the session no longer exists (`status` reports
`exists=false`). -/
theorem merge_success_concat_and_retire
    (st st' : ServerState) (fid u : String) (meta : ChunkMeta)
    (key : String × String × String)
    (hmeta : (load_chunk_metadata fid u st).2 = some meta)
    (hmerge : merge_upload none fid u st = (st', .merged key)) :
    lookupKey (u, meta.category, meta.filename) st'.artifacts
        = some (sessionConcat st u fid meta.total_chunks)
    ∧ (upload_status fid u st').2 = .absent := by
  have hmeta' : (getDir st u fid).metadata = some meta := hmeta
  unfold merge_upload load_chunk_metadata at hmerge
  dsimp only at hmerge
  rw [hmeta'] at hmerge
  dsimp only at hmerge
  split at hmerge
  · simp [Prod.ext_iff] at hmerge
  · rename_i heq
    exact absurd heq merge_chunks_none_not_ioError
  · rename_i k' heq
    simp only [Prod.mk.injEq, MergeUploadResult.merged.injEq] at hmerge
    obtain ⟨h1, _h2⟩ := hmerge
    have hfull : merge_chunks none fid meta.total_chunks meta.filename
        meta.category u (ensureDir u fid st) =
        ((merge_chunks none fid meta.total_chunks meta.filename
          meta.category u (ensureDir u fid st)).1, .merged k') := by
      rw [← heq]
    rcases merge_chunks_merged_spec hfull with ⟨_hkey, _hu, harts, hnone, _hr⟩
    constructor
    · rw [← h1, harts, getDir_ensureDir, artifacts_ensureDir,
        lookupKey_setKey_self]
      rfl
    · rw [← h1]
      exact upload_status_absent_of_noDir hnone

/-- concrete two-chunk session used by several witnesses: tenant `u` with
3 bytes used of a 100-byte quota, one session `f` holding chunks 0 and 1 -/
def wSt : ServerState :=
  { users := [("u", ⟨3, 100⟩)],
    chunkDirs := [(("u", "f"),
      ⟨some ⟨"out.bin", "docs", 2, 5, "u"⟩, [(0, [7]), (1, [10, 11])]⟩)],
    artifacts := [] }

set_option maxRecDepth 100000 in
/-- C1 witness at the concrete state `wSt` -/
theorem merge_success_concat_and_retire_witness :
    lookupKey ("u", "docs", "out.bin")
        (merge_upload none "f" "u" wSt).1.artifacts
      = some (sessionConcat wSt "u" "f" 2)
    ∧ (upload_status "f" "u" (merge_upload none "f" "u" wSt).1).2 = .absent :=
  merge_success_concat_and_retire wSt (merge_upload none "f" "u" wSt).1
    "f" "u" ⟨"out.bin", "docs", 2, 5, "u"⟩ ("u", "docs", "out.bin")
    (by decide) (by decide)

/-- C2: merge succeeds iff the stored chunk index set is exactly
`{0, ..., totalChunks-1}`; when an index is missing the failure reports the
missing index set sorted ascending and no artifact is written. -/
theorem merge_completeness_iff
    (st : ServerState) (fid : String) (tot : Nat) (fn cat u : String)
    (hnd : ((getDir st u fid).chunks.map Prod.fst).Nodup) :
    ((∃ key, (merge_chunks none fid tot fn cat u st).2 = .merged key) ↔
      ∀ i, i ∈ (getDir st u fid).chunks.map Prod.fst ↔ i < tot)
    ∧ (∀ l, (merge_chunks none fid tot fn cat u st).2 = .missing l →
        List.Sorted (· < ·) l
        ∧ (∀ i, i ∈ l ↔ i < tot ∧ i ∉ (getDir st u fid).chunks.map Prod.fst)
        ∧ (merge_chunks none fid tot fn cat u st).1.artifacts = st.artifacts) := by
  have hperm : List.Perm (listReceived (getDir st u fid))
      ((getDir st u fid).chunks.map Prod.fst) := List.perm_insertionSort _ _
  constructor
  · constructor
    · rintro ⟨key, hk⟩
      have hfull : merge_chunks none fid tot fn cat u st =
          ((merge_chunks none fid tot fn cat u st).1, .merged key) := by
        rw [← hk]
      exact (listReceived_eq_range_iff _ tot hnd).1
        (merge_chunks_merged_spec hfull).2.2.2.2
    · intro hm
      have hre : listReceived (getDir st u fid) = List.range tot :=
        (listReceived_eq_range_iff _ tot hnd).2 hm
      cases hr : (merge_chunks none fid tot fn cat u st).2 with
      | missing l =>
          have hfull : merge_chunks none fid tot fn cat u st =
              ((merge_chunks none fid tot fn cat u st).1, .missing l) := by
            rw [← hr]
          exact absurd hre (merge_chunks_missing_spec hfull).2.2
      | ioError => exact absurd hr merge_chunks_none_not_ioError
      | merged key => exact ⟨key, rfl⟩
  · intro l hl
    have hfull : merge_chunks none fid tot fn cat u st =
        ((merge_chunks none fid tot fn cat u st).1, .missing l) := by
      rw [← hl]
    rcases merge_chunks_missing_spec hfull with ⟨hst, hlval, _hne⟩
    refine ⟨?_, ?_, ?_⟩
    · rw [hlval]
      exact List.Pairwise.filter _ (List.pairwise_lt_range tot)
    · intro i
      rw [hlval]
      simp only [List.mem_filter, List.mem_range, decide_not, Bool.not_eq_eq_eq_not,
        Bool.not_true, decide_eq_false_iff_not]
      rw [hperm.mem_iff]
    · rw [hst]
      rfl

/-- concrete incomplete session (chunk 1 of 2 present, chunk 0 missing) -/
def wStM : ServerState :=
  { users := [("u", ⟨1, 100⟩)],
    chunkDirs := [(("u", "f"),
      ⟨some ⟨"out.bin", "docs", 2, 5, "u"⟩, [(1, [5])]⟩)],
    artifacts := [] }

/-- C2 witness: on the incomplete session `wStM`, the merge failure report
`[0]` is sorted ascending and no artifact is written -/
theorem merge_completeness_iff_witness :
    List.Sorted (· < ·) [0]
    ∧ (merge_chunks none "f" 2 "out.bin" "docs" "u" wStM).1.artifacts
        = wStM.artifacts :=
  have h := (merge_completeness_iff wStM "f" 2 "out.bin" "docs" "u"
    (by decide)).2 [0] (by decide)
  ⟨h.1, h.2.2⟩

/-- C3: `usedBytes <= quotaBytes` (with the quota non-negative) holds after
every sequence of chunk writes, merges, sweeps and artifact deletions once it
holds initially, and a chunk write refused by the quota gate performs no
write at all (the state is returned unchanged). -/
theorem quota_invariant_preserved
    (st : ServerState) (ops : List Op) (h : QuotaInv st) :
    QuotaInv (run st ops)
    ∧ ∀ fid idx data chk u st' m,
        save_chunk st fid idx data chk u = some (st', false, m) → st' = st :=
  ⟨quotaInv_run st ops h,
   fun _ _ _ _ _ _ _ hf => save_chunk_fail_eq hf⟩

set_option maxRecDepth 100000 in
/-- C3 witness: a concrete run of an upload, a sweep and a deletion keeps the
ledger invariant -/
theorem quota_invariant_preserved_witness :
    QuotaInv (run wSt
      [Op.upload 9 "f" "out.bin" "docs" 0 2 [1, 2] (sha256hex [1, 2]) "u",
       Op.mergeOp none "f" "u",
       Op.sweep 100 1,
       Op.deleteOp "docs" "out.bin" "u"]) :=
  (quota_invariant_preserved wSt _ (by decide)).1

/-- tenant at the quota ceiling: 10 of 10 bytes used, all stored as the
10-byte chunk 0 of session `f` -/
def c4St : ServerState :=
  { users := [("u", ⟨10, 10⟩)],
    chunkDirs := [(("u", "f"),
      ⟨some ⟨"a.bin", "general", 1, 0, "u"⟩,
       [(0, [1, 2, 3, 4, 5, 6, 7, 8, 9, 10])]⟩)],
    artifacts := [] }

set_option maxRecDepth 100000 in
/-- C4 counterexample: re-uploading index 0 with a 5-byte payload has quota
delta `5 - 10 = -5 <= 0`, so the claimed rule (`refuse exactly when
usedBytes + delta > quotaBytes`) would accept it; the code refuses with
`QuotaExceeded` because the gate charges the full new size without crediting
the prior payload. -/
theorem save_chunk_quota_delta_counterexample :
    save_chunk c4St "f" 0 [1, 2, 3, 4, 5] (sha256hex [1, 2, 3, 4, 5]) "u"
      = some (c4St, false, "Quota exceeded")
    ∧ (lookupKey "u" c4St.users).map UserRec.used_bytes = some 10
    ∧ (lookupKey "u" c4St.users).map UserRec.quota_bytes = some 10
    ∧ (lookupKey 0 (getDir c4St "u" "f").chunks).map List.length = some 10
    ∧ (10 : Int) + ((5 : Int) - (10 : Int)) ≤ 10 := by
  refine ⟨by decide, by decide, by decide, by decide, by decide⟩

/-- C4 amended: the quota gate refuses exactly when
`usedBytes + len(bytes) > quotaBytes` — the prior stored size for the index
is not credited in the decision — and on refusal nothing is written and
`usedBytes` is unchanged (the state is returned intact). -/
theorem quota_gate_no_prior_credit
    (st : ServerState) (fid : String) (idx : Nat) (data : ByteSeq)
    (chk u : String) (user : UserRec) (st' : ServerState) (ok : Bool)
    (m : String)
    (huser : lookupKey u st.users = some user)
    (hchk : sha256hex data = chk)
    (hrun : save_chunk st fid idx data chk u = some (st', ok, m)) :
    (ok = false ↔ user.used_bytes + data.length > user.quota_bytes)
    ∧ (ok = false → st' = st ∧ m = "Quota exceeded") := by
  unfold save_chunk at hrun
  dsimp only at hrun
  rw [if_neg (by simp [hchk])] at hrun
  rw [huser] at hrun
  dsimp only at hrun
  by_cases hq : user.used_bytes + data.length > user.quota_bytes
  · rw [if_pos hq] at hrun
    simp only [Option.some.injEq, Prod.mk.injEq] at hrun
    exact ⟨⟨fun _ => hq, fun _ => hrun.2.1.symm⟩,
      fun _ => ⟨hrun.1.symm, hrun.2.2.symm⟩⟩
  · rw [if_neg hq] at hrun
    simp only [Option.some.injEq, Prod.mk.injEq] at hrun
    constructor
    · constructor
      · intro hok
        rw [← hrun.2.1] at hok
        exact absurd hok (by simp)
      · intro hgt
        exact absurd hgt hq
    · intro hok
      rw [← hrun.2.1] at hok
      exact absurd hok (by simp)

/-- fresh 1-byte-quota tenant (the spec's own example) -/
def c4StW : ServerState :=
  { users := [("q", ⟨0, 1⟩)], chunkDirs := [], artifacts := [] }

set_option maxRecDepth 100000 in
/-- C4 amended witness: the 1-byte-quota tenant's refused 2-byte chunk
satisfies the gate condition `used + len > quota` -/
theorem quota_gate_no_prior_credit_witness :
    (0 : Int) + (([1, 2] : ByteSeq).length : Int) > 1 :=
  (quota_gate_no_prior_credit c4StW "g" 0 [1, 2] (sha256hex [1, 2]) "q"
    ⟨0, 1⟩ c4StW false "Quota exceeded" (by decide) rfl (by decide)).1.mp rfl

/-- C5: a successful re-upload of an already-stored index changes
`usedBytes` by exactly `newSize - oldSize` and replaces the payload. -/
theorem reupload_overwrite_delta
    (st : ServerState) (fid : String) (idx : Nat) (data old : ByteSeq)
    (chk u : String) (user : UserRec) (st' : ServerState) (m : String)
    (huser : lookupKey u st.users = some user)
    (hold : lookupKey idx (getDir st u fid).chunks = some old)
    (hrun : save_chunk st fid idx data chk u = some (st', true, m)) :
    lookupKey u st'.users
      = some ⟨user.used_bytes + data.length - old.length, user.quota_bytes⟩
    ∧ lookupKey idx (getDir st' u fid).chunks = some data := by
  unfold save_chunk at hrun
  dsimp only at hrun
  split at hrun
  · simp [Prod.ext_iff] at hrun
  · rw [huser] at hrun
    dsimp only at hrun
    split at hrun
    · simp [Prod.ext_iff] at hrun
    · rw [hold] at hrun
      dsimp only at hrun
      simp only [Option.some.injEq, Prod.mk.injEq] at hrun
      rw [← hrun.1]
      constructor
      · dsimp only
        rw [lookupKey_setKey_self,
          show user.used_bytes - (old.length : Int) + (data.length : Int)
            = user.used_bytes + (data.length : Int) - (old.length : Int)
            from by omega]
      · dsimp only [getDir]
        rw [lookupKey_setKey_self]
        dsimp only [Option.getD_some]
        exact lookupKey_setKey_self idx data _

set_option maxRecDepth 100000 in
/-- C5 witness: re-uploading chunk 0 of `wSt` (old size 1) with a 3-byte
payload moves `usedBytes` from 3 to `3 + 3 - 1 = 5` and stores the new
payload -/
theorem reupload_overwrite_delta_witness :
    lookupKey "u" (((save_chunk wSt "f" 0 [8, 9, 10]
        (sha256hex [8, 9, 10]) "u").getD (wSt, true, "")).1).users
      = some ⟨(3 : Int) + (3 : Int) - (1 : Int), 100⟩
    ∧ lookupKey 0 (getDir (((save_chunk wSt "f" 0 [8, 9, 10]
        (sha256hex [8, 9, 10]) "u").getD (wSt, true, "")).1) "u" "f").chunks
      = some [8, 9, 10] := by
  have h := reupload_overwrite_delta wSt "f" 0 [8, 9, 10] [7]
    (sha256hex [8, 9, 10]) "u" ⟨3, 100⟩
    (((save_chunk wSt "f" 0 [8, 9, 10] (sha256hex [8, 9, 10]) "u").getD
      (wSt, true, "")).1)
    (sha256hex [8, 9, 10]) (by decide) (by decide) (by decide)
  exact h

/-- ASCII upper-casing of a character (used to express the spec's
"case-insensitive hex" comparison) -/
def asciiUpperChar (c : Char) : Char :=
  if 97 ≤ c.toNat ∧ c.toNat ≤ 122 then Char.ofNat (c.toNat - 32) else c

/-- ASCII lower-casing of a character -/
def asciiLowerChar (c : Char) : Char :=
  if 65 ≤ c.toNat ∧ c.toNat ≤ 90 then Char.ofNat (c.toNat + 32) else c

def strUpper (s : String) : String := String.mk (s.data.map asciiUpperChar)

def strLower (s : String) : String := String.mk (s.data.map asciiLowerChar)

set_option maxRecDepth 100000 in
/-- C6 counterexample: the uppercase spelling of the correct SHA-256 digest is
case-insensitively equal to the digest of the bytes, yet `save_chunk` refuses
the chunk — the comparison in the code is exact string equality against the
lowercase `hexdigest()`, not case-insensitive. -/
theorem checksum_case_sensitivity_counterexample :
    strLower (strUpper (sha256hex [97])) = strLower (sha256hex [97])
    ∧ strUpper (sha256hex [97]) ≠ sha256hex [97]
    ∧ save_chunk c4StW "g" 0 [97] (strUpper (sha256hex [97])) "q"
        = some (c4StW, false,
            checksumErr (strUpper (sha256hex [97])) (sha256hex [97])) := by
  exact ⟨by decide, by decide, by decide⟩

/-- C6 amended: the checksum gate accepts the chunk iff the declared digest is
exactly (case-sensitively) equal to the lowercase SHA-256 hex digest of the
bytes; on mismatch the write is refused with the state returned unchanged, so
neither the received indices nor `usedBytes` change. -/
theorem checksum_gate_exact_match
    (st : ServerState) (fid : String) (idx : Nat) (data : ByteSeq)
    (chk u : String) :
    (chk ≠ sha256hex data →
      save_chunk st fid idx data chk u
        = some (st, false, checksumErr chk (sha256hex data)))
    ∧ (chk = sha256hex data →
        save_chunk st fid idx data chk u = none
        ∨ save_chunk st fid idx data chk u = some (st, false, "Quota exceeded")
        ∨ ∃ r, save_chunk st fid idx data chk u = some r ∧ r.2.1 = true) := by
  constructor
  · intro hne
    unfold save_chunk
    rw [if_pos (fun e => hne e.symm)]
  · intro heq
    have hgate : ¬ (sha256hex data ≠ chk) := by simp [heq]
    cases hu : lookupKey u st.users with
    | none =>
        left
        unfold save_chunk
        rw [if_neg hgate, hu]
    | some user =>
        by_cases hq : user.used_bytes + (data.length : Int) > user.quota_bytes
        · right; left
          unfold save_chunk
          rw [if_neg hgate, hu]
          dsimp only
          rw [if_pos hq]
        · right; right
          unfold save_chunk
          rw [if_neg hgate, hu]
          dsimp only
          rw [if_neg hq]
          exact ⟨_, rfl, rfl⟩

set_option maxRecDepth 100000 in
/-- C6 amended witness: a declared digest different from the digest of the
bytes is refused with the checksum-mismatch error and an unchanged state -/
theorem checksum_gate_exact_match_witness :
    save_chunk c4StW "g" 0 [] "00" "q"
      = some (c4StW, false, checksumErr "00" (sha256hex [])) :=
  (checksum_gate_exact_match c4StW "g" 0 [] "00" "q").1 (by decide)

set_option maxRecDepth 100000 in
/-- C7 counterexample: a `StorageIO` fault while writing chunk 1 of the
two-chunk session `wSt` leaves the partially written artifact (holding only
chunk 0's bytes `[7]`) in place — it is not removed before the error
propagates — while the session directory survives intact. -/
theorem merge_partial_failure_counterexample :
    (merge_upload (some 1) "f" "u" wSt).2 = .ioError
    ∧ lookupKey ("u", "docs", "out.bin")
        (merge_upload (some 1) "f" "u" wSt).1.artifacts = some [7]
    ∧ getDir (merge_upload (some 1) "f" "u" wSt).1 "u" "f"
        = getDir wSt "u" "f" := by
  exact ⟨by decide, by decide, by decide⟩

/-- C7 amended: when writing the artifact fails at chunk `k`, the session and
all its chunks remain intact for a retry, but the partially written artifact
(the concatenation of the chunks before `k`) is left in place rather than
removed; the error propagates with the ledger untouched. -/
theorem merge_partial_failure_leaves_partial_artifact
    (st st' : ServerState) (fid u : String) (meta : ChunkMeta) (k : Nat)
    (hmeta : (load_chunk_metadata fid u st).2 = some meta)
    (hmerge : merge_upload (some k) fid u st = (st', .ioError)) :
    lookupKey (u, meta.category, meta.filename) st'.artifacts
        = some (sessionConcat st u fid k)
    ∧ getDir st' u fid = getDir st u fid
    ∧ st'.users = st.users
    ∧ k < meta.total_chunks := by
  have hmeta' : (getDir st u fid).metadata = some meta := hmeta
  unfold merge_upload load_chunk_metadata at hmerge
  dsimp only at hmerge
  rw [hmeta'] at hmerge
  dsimp only at hmerge
  split at hmerge
  · simp [Prod.ext_iff] at hmerge
  · rename_i heq
    simp only [Prod.mk.injEq] at hmerge
    have hfull : merge_chunks (some k) fid meta.total_chunks meta.filename
        meta.category u (ensureDir u fid st) =
        ((merge_chunks (some k) fid meta.total_chunks meta.filename
          meta.category u (ensureDir u fid st)).1, .ioError) := by
      rw [← heq]
    rcases merge_chunks_ioError_spec hfull with ⟨hk, husers, harts, hdirs, _⟩
    refine ⟨?_, ?_, ?_, hk⟩
    · rw [← hmerge.1, harts, getDir_ensureDir, artifacts_ensureDir,
        lookupKey_setKey_self]
      rfl
    · rw [← hmerge.1]
      have hgd : getDir (merge_chunks (some k) fid meta.total_chunks
          meta.filename meta.category u (ensureDir u fid st)).1 u fid
          = getDir (ensureDir u fid (ensureDir u fid st)) u fid := by
        unfold getDir
        rw [hdirs]
      rw [hgd, getDir_ensureDir, getDir_ensureDir]
    · rw [← hmerge.1, husers]
      rfl
  · simp [Prod.ext_iff] at hmerge

set_option maxRecDepth 100000 in
/-- C7 amended witness at `wSt` with the fault injected at chunk 1 -/
theorem merge_partial_failure_leaves_partial_artifact_witness :
    lookupKey ("u", "docs", "out.bin")
        (merge_upload (some 1) "f" "u" wSt).1.artifacts
      = some (sessionConcat wSt "u" "f" 1)
    ∧ getDir (merge_upload (some 1) "f" "u" wSt).1 "u" "f" = getDir wSt "u" "f"
    ∧ (merge_upload (some 1) "f" "u" wSt).1.users = wSt.users
    ∧ 1 < 2 :=
  merge_partial_failure_leaves_partial_artifact wSt
    (merge_upload (some 1) "f" "u" wSt).1 "f" "u"
    ⟨"out.bin", "docs", 2, 5, "u"⟩ 1 (by decide) (by decide)

/-- tenant with 3 used bytes, all in one stale session created at time 0 -/
def c8St : ServerState :=
  { users := [("u", ⟨3, 100⟩)],
    chunkDirs := [(("u", "s"),
      ⟨some ⟨"b.bin", "general", 1, 0, "u"⟩, [(0, [1, 2, 3])]⟩)],
    artifacts := [] }

/-- C8 counterexample: sweeping the stale session removes it and counts it,
but the tenant's `used_bytes` stays at 3 — the reserved bytes are never
released back, contrary to the claim. -/
theorem sweep_no_quota_release_counterexample :
    (cleanup_old_chunks 4000 100 c8St).2 = 1
    ∧ lookupKey ("u", "s") (cleanup_old_chunks 4000 100 c8St).1.chunkDirs = none
    ∧ (lookupKey "u" (cleanup_old_chunks 4000 100 c8St).1.users).map
        UserRec.used_bytes = some 3 := by
  exact ⟨by decide, by decide, by decide⟩

/-- C8 amended: sweep removes exactly the sessions strictly older than the
retention window, counting each exactly once; an immediate second sweep
removes nothing and reports zero; the tenants' ledgers are untouched (the
swept chunks' reserved bytes are NOT released back to `usedBytes`). -/
theorem sweep_removes_stale_once (now ret : Nat) (st : ServerState) :
    (∀ p, p ∈ (cleanup_old_chunks now ret st).1.chunkDirs ↔
        (p ∈ st.chunkDirs ∧ isStale now ret p.2 = false))
    ∧ (cleanup_old_chunks now ret st).2
        = (st.chunkDirs.filter (fun p => isStale now ret p.2)).length
    ∧ (cleanup_old_chunks now ret st).1.users = st.users
    ∧ cleanup_old_chunks now ret (cleanup_old_chunks now ret st).1
        = ((cleanup_old_chunks now ret st).1, 0) := by
  refine ⟨?_, rfl, rfl, ?_⟩
  · intro p
    simp [cleanup_old_chunks, List.mem_filter]
  · have hkeep : (cleanup_old_chunks now ret st).1.chunkDirs.filter
        (fun p => isStale now ret p.2) = [] := by
      rw [List.filter_eq_nil_iff]
      intro p hp
      have := (List.mem_filter.1 hp).2
      simp at this
      simp [this]
    have hself : (cleanup_old_chunks now ret st).1.chunkDirs.filter
        (fun p => ¬ isStale now ret p.2) =
        (cleanup_old_chunks now ret st).1.chunkDirs := by
      rw [List.filter_eq_self]
      intro p hp
      have := (List.mem_filter.1 hp).2
      simpa using this
    show ({ (cleanup_old_chunks now ret st).1 with
        chunkDirs := (cleanup_old_chunks now ret st).1.chunkDirs.filter
          (fun p => ¬ isStale now ret p.2) },
      ((cleanup_old_chunks now ret st).1.chunkDirs.filter
        (fun p => isStale now ret p.2)).length) = _
    rw [hkeep, hself]
    rfl

/-- a `save_chunk` call never touches the session's `metadata.json` -/
theorem save_chunk_metadata_preserved {st st' : ServerState} {fid : String}
    {idx : Nat} {data : ByteSeq} {chk u : String} {b : Bool} {m : String}
    (h : save_chunk st fid idx data chk u = some (st', b, m)) :
    (getDir st' u fid).metadata = (getDir st u fid).metadata := by
  unfold save_chunk at h
  dsimp only at h
  split at h
  · simp only [Option.some.injEq, Prod.mk.injEq] at h
    rw [← h.1]
  · split at h
    · exact Option.noConfusion h
    · split at h
      · simp only [Option.some.injEq, Prod.mk.injEq] at h
        rw [← h.1]
      · simp only [Option.some.injEq, Prod.mk.injEq] at h
        rw [← h.1]
        show ((lookupKey (u, fid) (setKey (u, fid)
          ⟨(getDir st u fid).metadata, _⟩ st.chunkDirs)).getD
            ⟨none, []⟩).metadata = _
        rw [lookupKey_setKey_self]
        rfl

/-- existing three-chunk session declared as `orig.txt`, no chunks yet -/
def c9St : ServerState :=
  { users := [("u", ⟨0, 100⟩)],
    chunkDirs := [(("u", "f"),
      ⟨some ⟨"orig.txt", "general", 3, 0, "u"⟩, []⟩)],
    artifacts := [] }

/-- whether an `/upload/chunked` response reports success (HTTP 200) -/
def UploadResult.isOk : UploadResult → Bool
  | .ok _ _ _ _ => true
  | _ => false

set_option maxRecDepth 100000 in
/-- C9 counterexample: on the session declared with `totalChunks=3` and
filename `orig.txt`, a chunk request declaring `totalChunks=5` and filename
`other.txt` succeeds (no client error), with index 3 — outside the original
declaration — accepted; the stored metadata stays the original. -/
theorem declaration_mismatch_accepted_counterexample :
    (upload_chunk 7 "f" "other.txt" "general" 3 5 [9] (sha256hex [9]) "u"
        c9St).map (fun p => p.2.isOk) = some true
    ∧ (upload_chunk 7 "f" "other.txt" "general" 3 5 [9] (sha256hex [9]) "u"
        c9St).map (fun p => (load_chunk_metadata "f" "u" p.1).2)
      = some (some ⟨"orig.txt", "general", 3, 0, "u"⟩) := by
  exact ⟨by decide, by decide⟩

/-- C9 amended: once a session exists, its declared
totalChunks/filename/category are never overwritten by later chunk requests;
but a mismatching declaration is not rejected — the request is validated only
against its own declared `total_chunks` (the only client error is an index
outside the request's own range). -/
theorem first_chunk_wins_no_validation
    (now : Nat) (fid fn cat : String) (ci tot : Int) (data : ByteSeq)
    (chk u : String) (st st' : ServerState) (r : UploadResult)
    (meta : ChunkMeta)
    (hmeta : (load_chunk_metadata fid u st).2 = some meta)
    (hrun : upload_chunk now fid fn cat ci tot data chk u st = some (st', r)) :
    (load_chunk_metadata fid u st').2 = some meta
    ∧ (r = .badIndex ↔ ci < 0 ∨ ci ≥ tot) := by
  have hmeta' : (getDir st u fid).metadata = some meta := hmeta
  unfold upload_chunk load_chunk_metadata at hrun
  dsimp only at hrun
  split at hrun
  · rename_i hbad
    simp only [Option.some.injEq, Prod.mk.injEq] at hrun
    refine ⟨?_, ?_⟩
    · rw [← hrun.1]
      exact hmeta
    · exact ⟨fun _ => hbad, fun _ => hrun.2.symm⟩
  · rename_i hok
    rw [hmeta'] at hrun
    dsimp only at hrun
    split at hrun
    · exact Option.noConfusion hrun
    · rename_i st3 msg hsave
      simp only [Option.some.injEq, Prod.mk.injEq] at hrun
      have h3 : st3 = ensureDir u fid st := save_chunk_fail_eq hsave
      refine ⟨?_, ?_⟩
      · show (getDir st' u fid).metadata = some meta
        rw [← hrun.1, h3, getDir_ensureDir]
        exact hmeta'
      · constructor
        · intro hr
          rw [← hrun.2] at hr
          exact absurd hr (by simp)
        · intro hc
          exact absurd hc hok
    · rename_i st3 actual hsave
      simp only [Option.some.injEq, Prod.mk.injEq] at hrun
      refine ⟨?_, ?_⟩
      · show (getDir st' u fid).metadata = some meta
        have hpres := save_chunk_metadata_preserved hsave
        rw [← hrun.1]
        show (getDir (ensureDir u fid st3) u fid).metadata = some meta
        rw [getDir_ensureDir, hpres, getDir_ensureDir]
        exact hmeta'
      · constructor
        · intro hr
          rw [← hrun.2] at hr
          exact absurd hr (by simp)
        · intro hc
          exact absurd hc hok

set_option maxRecDepth 100000 in
/-- C9 amended witness: the mismatching request against `c9St` leaves the
original metadata in place, and its index gate is the request's own range -/
theorem first_chunk_wins_no_validation_witness :
    (load_chunk_metadata "f" "u"
        ((upload_chunk 7 "f" "other.txt" "general" 3 5 [9] (sha256hex [9])
          "u" c9St).getD (c9St, .badIndex)).1).2
      = some ⟨"orig.txt", "general", 3, 0, "u"⟩
    ∧ (UploadResult.ok 3 [3] 5 false = .badIndex ↔
        (3 : Int) < 0 ∨ (3 : Int) ≥ 5) :=
  first_chunk_wins_no_validation 7 "f" "other.txt" "general" 3 5 [9]
    (sha256hex [9]) "u" c9St
    ((upload_chunk 7 "f" "other.txt" "general" 3 5 [9] (sha256hex [9])
      "u" c9St).getD (c9St, .badIndex)).1
    (.ok 3 [3] 5 false) ⟨"orig.txt", "general", 3, 0, "u"⟩
    (by decide) (by decide)

/-- C10: a first chunk request on an unknown session whose `save_chunk` then
fails (checksum mismatch or quota) has nevertheless created the session
metadata: `status` afterwards reports the session as existing with an empty
received-index list. -/
theorem session_created_even_on_failed_first_chunk
    (now : Nat) (fid fn cat : String) (ci tot : Int) (data : ByteSeq)
    (chk u : String) (st st' : ServerState) (msg : String)
    (hnew : lookupKey (u, fid) st.chunkDirs = none)
    (hrun : upload_chunk now fid fn cat ci tot data chk u st
      = some (st', .saveFailed msg)) :
    (upload_status fid u st').2 = .present fn cat tot.toNat [] false := by
  have hdir : getDir st u fid = ⟨none, []⟩ := by
    unfold getDir
    rw [hnew]
    rfl
  unfold upload_chunk load_chunk_metadata at hrun
  dsimp only at hrun
  split at hrun
  · simp [Prod.ext_iff] at hrun
  · rename_i hok
    rw [hdir] at hrun
    dsimp only at hrun
    split at hrun
    · exact Option.noConfusion hrun
    · rename_i st3 m hsave
      simp only [Option.some.injEq, Prod.mk.injEq,
        UploadResult.saveFailed.injEq] at hrun
      have h3 : st3 = save_chunk_metadata fid fn cat tot.toNat u now
          (ensureDir u fid st) := save_chunk_fail_eq hsave
      have htot : tot.toNat ≠ 0 := by
        push_neg at hok
        omega
      have hD : getDir (save_chunk_metadata fid fn cat tot.toNat u now
          (ensureDir u fid st)) u fid
          = ⟨some ⟨fn, cat, tot.toNat, now, u⟩, []⟩ := by
        unfold save_chunk_metadata
        dsimp only
        rw [getDir_ensureDir, hdir]
        unfold getDir
        dsimp only
        rw [lookupKey_setKey_self]
        rfl
      rw [← hrun.1, h3]
      unfold upload_status load_chunk_metadata get_received_chunks
      dsimp only
      rw [getDir_ensureDir, hD]
      dsimp only [listReceived, List.map]
      simp [List.insertionSort, htot.symm]
    · simp [Prod.ext_iff] at hrun

set_option maxRecDepth 100000 in
/-- C10 witness: a fresh session's first chunk with a wrong checksum is
refused, yet `status` then reports `exists=true` with no received chunks -/
theorem session_created_even_on_failed_first_chunk_witness :
    (upload_status "h" "q"
        ((upload_chunk 3 "h" "n.bin" "general" 0 2 [1] "zz" "q"
          c4StW).getD (c4StW, .badIndex)).1).2
      = .present "n.bin" "general" (2 : Int).toNat [] false :=
  session_created_even_on_failed_first_chunk 3 "h" "n.bin" "general" 0 2 [1]
    "zz" "q" c4StW
    ((upload_chunk 3 "h" "n.bin" "general" 0 2 [1] "zz" "q" c4StW).getD
      (c4StW, .badIndex)).1
    (checksumErr "zz" (sha256hex [1])) (by decide) (by decide)

end Bkup
